import Mathlib

/-!
Verification development for the harp string detection pipeline
(`backend/inference.py`): onset segmentation, threshold arbitration,
YIN pitch fallback, and result emission (CSV / fast-mode JSON / SRT).

Numeric model: audio samples, timestamps, probabilities and frequencies are
rationals (`ℚ`); the decimal constants of the source are embedded exactly.
External collaborators (librosa.load / onset_detect / yin, the keras model,
pandas, ffmpeg) are abstracted at their call boundary: the raw onset list,
the per-clip probability vector and the per-frame pitch estimates are inputs,
exactly as the source consumes their outputs.
-/

namespace Harp

/-- `NUM_STRINGS = 16`. -/
def NUM_STRINGS : Nat := 16

/-- `SAMPLE_RATE = 16000`. -/
def SAMPLE_RATE : Nat := 16000

/-- `CLIP_SAMPLES = int(SAMPLE_RATE * CLIP_SEC) = int(16000 * 0.8)`. -/
def CLIP_SAMPLES : Nat := 12800

/-- `THR_DEFAULT = 0.25` (single threshold, default mode). -/
def THR_DEFAULT : ℚ := 25/100

/-- `THR_ARRAY`: per-string thresholds for hybrid mode, `0.25` everywhere
except 0-based index 11 (string 12), which is `0.03`. -/
def THR_ARRAY (i : Nat) : ℚ := if i = 11 then 3/100 else 25/100

/-- `MODEL_CONF_MIN = 0.20`. -/
def MODEL_CONF_MIN : ℚ := 20/100

/-- `YIN_WIN_SEC = 0.15`. -/
def YIN_WIN_SEC : ℚ := 15/100

/-- `OFFSET_SEC = 0.03`. -/
def OFFSET_SEC : ℚ := 3/100

/-- `HOLD_SEC = 0.18`. -/
def HOLD_SEC : ℚ := 18/100

/-- `FLASH_DURATION = 0.25`. -/
def FLASH_DURATION : ℚ := 25/100

/-- The `HARP_STRINGS` frequency table (string number 1..16 ↦ Hz). -/
def HARP_STRINGS : Nat → ℚ
  | 1 => 78399/100
  | 2 => 65925/100
  | 3 => 58733/100
  | 4 => 52325/100
  | 5 => 440
  | 6 => 392
  | 7 => 32963/100
  | 8 => 29366/100
  | 9 => 26163/100
  | 10 => 220
  | 11 => 196
  | 12 => 16481/100
  | 13 => 14683/100
  | 14 => 13081/100
  | 15 => 110
  | 16 => 98
  | _ => 0

/-- `FREQS = np.array([HARP_STRINGS[i] for i in range(1, 17)])`. -/
def FREQS : List ℚ := (List.range 16).map (fun i => HARP_STRINGS (i + 1))

/-- Enumerate a list with indices starting at `i` (helper for the
first-occurrence argmin/argmax of numpy). -/
def enumFrom {α : Type} (i : Nat) : List α → List (Nat × α)
  | [] => []
  | x :: xs => (i, x) :: enumFrom (i + 1) xs

/-- Fold keeping the first pair of minimal value (`np.argmin` keeps the first
index at which the minimum occurs: later entries replace only on strict `<`). -/
def argminPairs : List (Nat × ℚ) → Nat × ℚ → Nat × ℚ
  | [], b => b
  | p :: ps, b => argminPairs ps (if p.2 < b.2 then p else b)

/-- `np.argmin` on a rational list (0 on the empty list, which numpy rejects). -/
def argminIdx : List ℚ → Nat
  | [] => 0
  | x :: xs => (argminPairs (enumFrom 1 xs) (0, x)).1

/-- Fold keeping the first pair of maximal value (`np.argmax`). -/
def argmaxPairs : List (Nat × ℚ) → Nat × ℚ → Nat × ℚ
  | [], b => b
  | p :: ps, b => argmaxPairs ps (if b.2 < p.2 then p else b)

/-- `np.argmax` on a rational list (0 on the empty list). -/
def argmaxIdx : List ℚ → Nat
  | [] => 0
  | x :: xs => (argmaxPairs (enumFrom 1 xs) (0, x)).1

/-- `np.max` on a rational list (0 on the empty list). -/
def maxList : List ℚ → ℚ
  | [] => 0
  | x :: xs => xs.foldl max x

/-- `np.median`: sort, take the middle element (odd length) or the mean of the
two middle elements (even length). -/
def median (l : List ℚ) : ℚ :=
  let s := l.insertionSort (· ≤ ·)
  if l.length % 2 = 1 then s.getD (l.length / 2) 0
  else (s.getD (l.length / 2 - 1) 0 + s.getD (l.length / 2) 0) / 2

/-- The pitch → string-number map of `yin_string_from_segment`:
`int(np.argmin(np.abs(FREQS - pitch))) + 1`. -/
def yinStringOfPitch (pitch : ℚ) : Nat :=
  argminIdx (FREQS.map (fun f => |f - pitch|)) + 1

/-- Embedding of `yin_string_from_segment`. `librosa.yin` (external pitch
tracker) is abstracted by the list of per-frame pitch estimates it returns on
the segment; a `none` entry stands for a non-finite frame. The code drops
non-finite and non-positive frames, returns `None, None` when nothing is left,
and otherwise maps the median pitch to the nearest table frequency. -/
def yin_string_from_frames (frames : List (Option ℚ)) : Option (Nat × ℚ) :=
  let f0 := (frames.filterMap id).filter (fun x => decide (0 < x))
  if f0.isEmpty then none
  else
    let pitch := median f0
    some (yinStringOfPitch pitch, pitch)

/-- The greedy onset filter of `run_pipeline`: keep `t` only when
`t - last_t >= HOLD_SEC`, updating `last_t` to each accepted time. -/
def segmentAux (lastT : ℚ) : List ℚ → List ℚ
  | [] => []
  | t :: ts => if HOLD_SEC ≤ t - lastT then t :: segmentAux t ts else segmentAux lastT ts

/-- Accepted onsets: the greedy filter started with `last_t = -1e9`. -/
def segmentOnsets (onsets : List ℚ) : List ℚ :=
  segmentAux (-(10 ^ 9)) onsets

/-- `thr = THR_ARRAY if use_yin_fallback else np.full(NUM_STRINGS, THR_DEFAULT)`. -/
def thr (use_yin_fallback : Bool) (i : Nat) : ℚ :=
  if use_yin_fallback then THR_ARRAY i else THR_DEFAULT

/-- `pred = (probs >= thr).astype(int)` (16 binary decisions). -/
def predVec (use_yin_fallback : Bool) (probs : List ℚ) : List Nat :=
  (List.range NUM_STRINGS).map
    (fun i => if thr use_yin_fallback i ≤ probs.getD i 0 then 1 else 0)

/-- `active = np.where(pred == 1)[0] + 1` (1-based active string numbers). -/
def activeOf (use_yin_fallback : Bool) (probs : List ℚ) : List Nat :=
  ((List.range NUM_STRINGS).filter
    (fun i => decide (thr use_yin_fallback i ≤ probs.getD i 0))).map (· + 1)

/-- One CSV row / per-onset result of `run_pipeline`: `used` is `none` when the
row has no `used` column (default mode). -/
structure DetectionRecord where
  time_sec : ℚ
  predicted_strings : List Nat
  top1 : Nat
  top1_prob : ℚ
  probs : List ℚ
  pred : List Nat
  used : Option String
deriving Repr, DecidableEq

/-- The per-onset decision step of `run_pipeline` (lines 186-213): threshold
the probabilities, then in hybrid mode run the YIN fallback when the top-1
probability is below `MODEL_CONF_MIN` or the active set is empty. `frames` are
the per-frame pitch estimates `librosa.yin` yields on the fallback segment. -/
def processOnset (use_yin_fallback : Bool) (t : ℚ) (probs : List ℚ)
    (frames : List (Option ℚ)) : DetectionRecord :=
  let top1 := argmaxIdx probs + 1
  let top1_prob := maxList probs
  let pred := predVec use_yin_fallback probs
  let active := activeOf use_yin_fallback probs
  if use_yin_fallback = true ∧ (top1_prob < MODEL_CONF_MIN ∨ active = []) then
    match yin_string_from_frames frames with
    | some (s, _) =>
        { time_sec := t, predicted_strings := [s], top1 := top1,
          top1_prob := top1_prob, probs := probs, pred := pred,
          used := some "yin" }
    | none =>
        { time_sec := t, predicted_strings := active, top1 := top1,
          top1_prob := top1_prob, probs := probs, pred := pred,
          used := some "none" }
  else
    { time_sec := t, predicted_strings := active, top1 := top1,
      top1_prob := top1_prob, probs := probs, pred := pred,
      used := if use_yin_fallback then some "model" else none }

/-- Python `int()`: truncation toward zero on a rational. -/
def pyInt (q : ℚ) : Int :=
  if 0 ≤ q then ⌊q⌋ else -⌊-q⌋

/-- Python slice `y[a:b]` for the non-negative indices used here. -/
def pySlice (y : List ℚ) (a b : Int) : List ℚ :=
  (y.drop a.toNat).take (b.toNat - a.toNat)

/-- `start = max(0, int((t + OFFSET_SEC) * sr))`. -/
def clipStartIdx (sr : Nat) (t : ℚ) : Nat :=
  (max 0 (pyInt ((t + OFFSET_SEC) * sr))).toNat

/-- The classifier clip `y[start : start + CLIP_SAMPLES]`, offset-shifted by
`OFFSET_SEC` after the onset. -/
def clipSegment (y : List ℚ) (sr : Nat) (t : ℚ) : List ℚ :=
  (y.drop (clipStartIdx sr t)).take CLIP_SAMPLES

/-- The fallback segment `y[int(t * sr) : int((t + YIN_WIN_SEC) * sr)]`: the
raw `YIN_WIN_SEC` window starting exactly at the onset. -/
def fallbackSegment (y : List ℚ) (sr : Nat) (t : ℚ) : List ℚ :=
  pySlice y (pyInt (t * sr)) (pyInt ((t + YIN_WIN_SEC) * sr))

/-- The per-onset records of `run_pipeline`. The external collaborators are
abstracted at their call boundary: `rawOnsets` is what `librosa.onset_detect`
returns, `classify` maps a clip to the model's 16 probabilities (the batched
`model.predict` is data-parallel across onsets, spec §4.3, so it is modelled
per onset), and `yinFrames` is `librosa.yin` on a segment. -/
def pipelineRecords (use_yin_fallback : Bool) (y : List ℚ) (sr : Nat)
    (classify : List ℚ → List ℚ) (yinFrames : List ℚ → List (Option ℚ))
    (rawOnsets : List ℚ) : List DetectionRecord :=
  (segmentOnsets rawOnsets).map (fun t =>
    processOnset use_yin_fallback t (classify (clipSegment y sr t))
      (yinFrames (fallbackSegment y sr t)))

/-- The CSV column names, i.e. the keys of a row dict of `run_pipeline`. -/
def csvColumns (use_yin_fallback : Bool) : List String :=
  ["time_sec", "predicted_strings", "top1", "top1_prob"]
    ++ (List.range NUM_STRINGS).map (fun i => "prob_S" ++ toString (i + 1))
    ++ (List.range NUM_STRINGS).map (fun i => "pred_S" ++ toString (i + 1))
    ++ (if use_yin_fallback then ["used"] else [])

/-- Header cells of `pd.DataFrame(rows).to_csv(...)`: pandas derives the
columns from the row dicts, so a `DataFrame` built from zero rows has no
columns and the written header line is empty. -/
def csvHeaderCells (use_yin_fallback : Bool) (records : List DetectionRecord) :
    List String :=
  if records.isEmpty then [] else csvColumns use_yin_fallback

/-- Number of CSV data rows: one per record. -/
def csvDataRowCount (records : List DetectionRecord) : Nat :=
  records.length

/-- One object of the fast-mode JSON array (the `cls` field is always the
literal `"audio_onset"` in the source). -/
structure JsonEntry where
  t : ℚ
  string : Nat
  cls : String
  conf : ℚ
deriving Repr, DecidableEq

/-- Fast-mode JSON assembly (lines 221-239): one object per
(onset, active string) pair, `conf` read back from the row's
`prob_S{string_num}` column. -/
def fastJson (records : List DetectionRecord) : List JsonEntry :=
  records.flatMap (fun r =>
    r.predicted_strings.map (fun s =>
      { t := r.time_sec, string := s, cls := "audio_onset",
        conf := r.probs.getD (s - 1) 0 }))

/-- Start and end (in seconds, before SRT timestamp formatting) of the
subtitle block for an onset at `t`:
`start_t = max(0.0, t - 0.02)`, `end_t = start_t + FLASH_DURATION`. -/
def srtWindow (t : ℚ) : ℚ × ℚ :=
  let start_t := max 0 (t - 2/100)
  (start_t, start_t + FLASH_DURATION)

/-- Numbered subtitle blocks, `enumerate(..., start=1)` in the source. -/
def srtBlocksAux (i : Nat) : List DetectionRecord → List (Nat × ℚ × ℚ)
  | [] => []
  | r :: rs => (i, srtWindow r.time_sec) :: srtBlocksAux (i + 1) rs

/-- The subtitle blocks written on the full path: one per record, numbered
from 1. -/
def srtBlocks (records : List DetectionRecord) : List (Nat × ℚ × ℚ) :=
  srtBlocksAux 1 records

set_option maxRecDepth 100000

lemma argminPairs_mem : ∀ (ps : List (Nat × ℚ)) (b : Nat × ℚ),
    argminPairs ps b = b ∨ argminPairs ps b ∈ ps := by
  intro ps
  induction ps with
  | nil => intro b; left; rfl
  | cons p ps ih =>
    intro b
    simp only [argminPairs]
    rcases ih (if p.2 < b.2 then p else b) with h | h
    · rw [h]
      by_cases hc : p.2 < b.2
      · rw [if_pos hc]; right; exact List.mem_cons_self p ps
      · rw [if_neg hc]; left; rfl
    · right; exact List.mem_cons_of_mem p h

lemma argminPairs_le : ∀ (ps : List (Nat × ℚ)) (b : Nat × ℚ),
    (argminPairs ps b).2 ≤ b.2 ∧ ∀ p ∈ ps, (argminPairs ps b).2 ≤ p.2 := by
  intro ps
  induction ps with
  | nil => intro b; exact ⟨le_refl _, by simp⟩
  | cons p ps ih =>
    intro b
    simp only [argminPairs]
    by_cases hc : p.2 < b.2
    · rw [if_pos hc]
      obtain ⟨h1, h2⟩ := ih p
      refine ⟨le_trans h1 (le_of_lt hc), ?_⟩
      intro q hq
      rcases List.mem_cons.mp hq with rfl | hq
      · exact h1
      · exact h2 q hq
    · rw [if_neg hc]
      obtain ⟨h1, h2⟩ := ih b
      refine ⟨h1, ?_⟩
      intro q hq
      rcases List.mem_cons.mp hq with rfl | hq
      · exact le_trans h1 (le_of_not_lt hc)
      · exact h2 q hq

lemma enumFrom_mem_spec : ∀ (l : List ℚ) (i : Nat) (p : Nat × ℚ),
    p ∈ enumFrom i l → i ≤ p.1 ∧ p.1 - i < l.length ∧ l.getD (p.1 - i) 0 = p.2 := by
  intro l
  induction l with
  | nil => intro i p hp; simp [enumFrom] at hp
  | cons x xs ih =>
    intro i p hp
    simp only [enumFrom, List.mem_cons] at hp
    rcases hp with rfl | hp
    · exact ⟨le_refl _, by simp, by simp⟩
    · obtain ⟨h1, h2, h3⟩ := ih (i + 1) p hp
      refine ⟨by omega, by simp only [List.length_cons]; omega, ?_⟩
      have he : p.1 - i = (p.1 - (i + 1)) + 1 := by omega
      rw [he, List.getD_cons_succ]
      exact h3

lemma enumFrom_mem_of_lt : ∀ (l : List ℚ) (i j : Nat), j < l.length →
    (i + j, l.getD j 0) ∈ enumFrom i l := by
  intro l
  induction l with
  | nil => intro i j h; simp at h
  | cons x xs ih =>
    intro i j h
    cases j with
    | zero => simp [enumFrom]
    | succ k =>
      have hk : k < xs.length := by simpa using h
      have hmem := ih (i + 1) k hk
      simp only [enumFrom, List.mem_cons]
      right
      have he : i + (k + 1) = (i + 1) + k := by omega
      rw [he, List.getD_cons_succ]
      exact hmem

lemma argminIdx_spec : ∀ (l : List ℚ), l ≠ [] →
    argminIdx l < l.length ∧
    ∀ j, j < l.length → l.getD (argminIdx l) 0 ≤ l.getD j 0 := by
  intro l hne
  match l with
  | x :: xs =>
    set r := argminPairs (enumFrom 1 xs) (0, x) with hr
    have h0 : enumFrom 0 (x :: xs) = (0, x) :: enumFrom 1 xs := rfl
    have hidx : argminIdx (x :: xs) = r.1 := rfl
    have hmem : r ∈ enumFrom 0 (x :: xs) := by
      rw [h0]
      rcases argminPairs_mem (enumFrom 1 xs) (0, x) with h | h
      · rw [← hr] at h; rw [h]; exact List.mem_cons_self _ _
      · rw [← hr] at h; exact List.mem_cons_of_mem _ h
    obtain ⟨-, hlt, hget⟩ := enumFrom_mem_spec (x :: xs) 0 r hmem
    rw [Nat.sub_zero] at hlt hget
    obtain ⟨hb, hall⟩ := argminPairs_le (enumFrom 1 xs) (0, x)
    rw [← hr] at hb hall
    refine ⟨by rw [hidx]; exact hlt, ?_⟩
    intro j hj
    have hpair := enumFrom_mem_of_lt (x :: xs) 0 j hj
    rw [Nat.zero_add, h0] at hpair
    rw [hidx, hget]
    rcases List.mem_cons.mp hpair with heq | hmem2
    · have hsnd : (x :: xs).getD j 0 = x := congrArg Prod.snd heq
      rw [hsnd]
      exact hb
    · exact hall _ hmem2

lemma FREQS_map_abs_getD (pitch : ℚ) (j : Nat) (hj : j < 16) :
    (FREQS.map (fun f => |f - pitch|)).getD j 0 = |HARP_STRINGS (j + 1) - pitch| := by
  interval_cases j <;> rfl

lemma FREQS_map_abs_length (pitch : ℚ) :
    (FREQS.map (fun f => |f - pitch|)).length = 16 := rfl

lemma segmentAux_spec : ∀ (l : List ℚ) (lastT : ℚ),
    ((segmentAux lastT l).Chain' (fun a b => a + HOLD_SEC ≤ b)) ∧
    (∀ x ∈ (segmentAux lastT l).head?, lastT + HOLD_SEC ≤ x) := by
  intro l
  induction l with
  | nil => intro lastT; exact ⟨List.chain'_nil, by simp [segmentAux]⟩
  | cons t ts ih =>
    intro lastT
    by_cases h : HOLD_SEC ≤ t - lastT
    · constructor
      · show List.Chain' _ (if HOLD_SEC ≤ t - lastT then t :: segmentAux t ts else segmentAux lastT ts)
        rw [if_pos h]
        exact List.chain'_cons'.mpr ⟨(ih t).2, (ih t).1⟩
      · show ∀ x ∈ (if HOLD_SEC ≤ t - lastT then t :: segmentAux t ts else segmentAux lastT ts).head?, _
        rw [if_pos h]
        intro x hx
        simp only [List.head?_cons, Option.mem_def, Option.some.injEq] at hx
        subst hx
        linarith
    · constructor
      · show List.Chain' _ (if HOLD_SEC ≤ t - lastT then t :: segmentAux t ts else segmentAux lastT ts)
        rw [if_neg h]
        exact (ih lastT).1
      · show ∀ x ∈ (if HOLD_SEC ≤ t - lastT then t :: segmentAux t ts else segmentAux lastT ts).head?, _
        rw [if_neg h]
        exact (ih lastT).2

lemma HOLD_SEC_pos : 0 < HOLD_SEC := by
  norm_num [HOLD_SEC]

/-- C3: for every raw onset sequence the accepted output of the segmenter is
monotonically increasing and consecutive accepted onsets differ by at least
`HOLD_SEC = 0.18 s`; raw onsets at `t = 1.0 s` and `t = 1.05 s` collapse to
the single accepted onset `1.0 s`. -/
theorem segmenter_monotone_min_gap :
    (∀ onsets : List ℚ,
      ((segmentOnsets onsets).Chain' (fun a b => a + HOLD_SEC ≤ b)) ∧
      ((segmentOnsets onsets).Pairwise (· < ·))) ∧
    segmentOnsets [1, 105/100] = [1] := by
  constructor
  · intro onsets
    have h : (segmentOnsets onsets).Chain' (fun a b => a + HOLD_SEC ≤ b) :=
      (segmentAux_spec onsets (-(10 ^ 9))).1
    refine ⟨h, ?_⟩
    have h2 : (segmentOnsets onsets).Chain' (· < ·) := by
      refine h.imp ?_
      intro a b hab
      have := HOLD_SEC_pos
      linarith
    exact List.chain'_iff_pairwise.mp h2
  · with_unfolding_all rfl

/-- C6: for every positive estimated pitch, the mapped string number is in
1..16 and its table frequency minimizes the absolute distance to the pitch
over all 16 strings; a pitch of 440 Hz maps to string 5 and a pitch of
445 Hz also maps to string 5. -/
theorem pitch_to_string_nearest :
    (∀ pitch : ℚ, 0 < pitch →
      1 ≤ yinStringOfPitch pitch ∧ yinStringOfPitch pitch ≤ 16 ∧
      ∀ j, 1 ≤ j → j ≤ 16 →
        |HARP_STRINGS (yinStringOfPitch pitch) - pitch| ≤ |HARP_STRINGS j - pitch|) ∧
    yinStringOfPitch 440 = 5 ∧ yinStringOfPitch 445 = 5 := by
  refine ⟨?_, by with_unfolding_all rfl, by with_unfolding_all rfl⟩
  intro pitch _hpos
  set l := FREQS.map (fun f => |f - pitch|) with hl
  have hlen : l.length = 16 := FREQS_map_abs_length pitch
  have hne : l ≠ [] := by
    intro hnil
    rw [hnil] at hlen
    simp at hlen
  obtain ⟨hlt, hmin⟩ := argminIdx_spec l hne
  rw [hlen] at hlt
  have hs : yinStringOfPitch pitch = argminIdx l + 1 := rfl
  refine ⟨by omega, by omega, ?_⟩
  intro j h1 h16
  have hj1 : j - 1 < 16 := by omega
  have hcmp := hmin (j - 1) (by omega)
  rw [FREQS_map_abs_getD pitch (argminIdx l) hlt, FREQS_map_abs_getD pitch (j - 1) hj1] at hcmp
  have hjj : j - 1 + 1 = j := by omega
  rw [hjj] at hcmp
  rw [hs]
  exact hcmp

lemma processOnset_false (t : ℚ) (probs : List ℚ) (frames : List (Option ℚ)) :
    processOnset false t probs frames =
      { time_sec := t, predicted_strings := activeOf false probs,
        top1 := argmaxIdx probs + 1, top1_prob := maxList probs,
        probs := probs, pred := predVec false probs, used := none } := by
  unfold processOnset
  rw [if_neg (fun hand => Bool.false_ne_true hand.1)]
  rfl

lemma processOnset_model (t : ℚ) (probs : List ℚ) (frames : List (Option ℚ))
    (hc : ¬(maxList probs < MODEL_CONF_MIN ∨ activeOf true probs = [])) :
    processOnset true t probs frames =
      { time_sec := t, predicted_strings := activeOf true probs,
        top1 := argmaxIdx probs + 1, top1_prob := maxList probs,
        probs := probs, pred := predVec true probs, used := some "model" } := by
  unfold processOnset
  rw [if_neg (fun hand => hc hand.2)]
  rfl

lemma processOnset_yin (t : ℚ) (probs : List ℚ) (frames : List (Option ℚ)) (s : Nat) (p : ℚ)
    (hc : maxList probs < MODEL_CONF_MIN ∨ activeOf true probs = [])
    (h : yin_string_from_frames frames = some (s, p)) :
    processOnset true t probs frames =
      { time_sec := t, predicted_strings := [s],
        top1 := argmaxIdx probs + 1, top1_prob := maxList probs,
        probs := probs, pred := predVec true probs, used := some "yin" } := by
  unfold processOnset
  rw [if_pos ⟨rfl, hc⟩, h]

lemma processOnset_none (t : ℚ) (probs : List ℚ) (frames : List (Option ℚ))
    (hc : maxList probs < MODEL_CONF_MIN ∨ activeOf true probs = [])
    (h : yin_string_from_frames frames = none) :
    processOnset true t probs frames =
      { time_sec := t, predicted_strings := activeOf true probs,
        top1 := argmaxIdx probs + 1, top1_prob := maxList probs,
        probs := probs, pred := predVec true probs, used := some "none" } := by
  unfold processOnset
  rw [if_pos ⟨rfl, hc⟩, h]

/-- C5: the pitch fallback is invoked for an onset iff the mode is hybrid and
(the top-1 probability is strictly below `MODEL_CONF_MIN = 0.20` or the
thresholded active set is empty); the hybrid pipeline hands the fallback the
frames computed on `fallbackSegment` — the raw `YIN_WIN_SEC = 0.15 s` window
starting exactly at the onset — while the classifier gets the
`OFFSET_SEC`-shifted clip; default mode never invokes the fallback (the record
does not depend on the pitch frames at all) and its active set is exactly the
threshold decision. Concretely, at `sr = 100`, `t = 0` on a ramp waveform the
fallback window is samples 0..14 while the classifier clip starts at
sample 3. -/
theorem fallback_invocation_iff :
    (∀ (t : ℚ) (probs : List ℚ) (frames frames' : List (Option ℚ)),
      ((processOnset true t probs frames).used ≠ some "model" ↔
        (maxList probs < MODEL_CONF_MIN ∨ activeOf true probs = [])) ∧
      (processOnset false t probs frames).used = none ∧
      (processOnset false t probs frames).predicted_strings = activeOf false probs ∧
      processOnset false t probs frames = processOnset false t probs frames') ∧
    (∀ (u : Bool) (y : List ℚ) (sr : Nat) (classify : List ℚ → List ℚ)
        (yinFrames : List ℚ → List (Option ℚ)) (rawOnsets : List ℚ),
      pipelineRecords u y sr classify yinFrames rawOnsets =
        (segmentOnsets rawOnsets).map (fun t =>
          processOnset u t (classify (clipSegment y sr t))
            (yinFrames (fallbackSegment y sr t)))) ∧
    fallbackSegment ((List.range 20).map (fun i => (i : ℚ))) 100 0 =
      (List.range 15).map (fun i => (i : ℚ)) ∧
    clipSegment ((List.range 20).map (fun i => (i : ℚ))) 100 0 =
      (List.range' 3 17).map (fun i => (i : ℚ)) := by
  refine ⟨?_, fun u y sr cl yf raw => rfl, by with_unfolding_all rfl,
    by with_unfolding_all rfl⟩
  intro t probs frames frames'
  refine ⟨?_, ?_, ?_, ?_⟩
  · by_cases hc : maxList probs < MODEL_CONF_MIN ∨ activeOf true probs = []
    · constructor
      · intro _; exact hc
      · intro _
        rcases h : yin_string_from_frames frames with _ | ⟨s, p⟩
        · rw [processOnset_none t probs frames hc h]
          simp
        · rw [processOnset_yin t probs frames s p hc h]
          simp
    · rw [processOnset_model t probs frames hc]
      constructor
      · intro hne; exact absurd rfl hne
      · intro hcond; exact absurd hcond hc
  · rw [processOnset_false t probs frames]
  · rw [processOnset_false t probs frames]
  · rw [processOnset_false t probs frames, processOnset_false t probs frames']

/-- C9: in hybrid mode the `top1`, `top1_prob`, `pred` (binary threshold
decisions), `probs` and `time_sec` fields of the record always equal the raw
classifier quantities, for every possible outcome of the pitch fallback; only
`predicted_strings` and `used` can differ from the threshold decision. -/
theorem fallback_preserves_model_fields :
    ∀ (t : ℚ) (probs : List ℚ) (frames : List (Option ℚ)),
      (processOnset true t probs frames).top1 = argmaxIdx probs + 1 ∧
      (processOnset true t probs frames).top1_prob = maxList probs ∧
      (processOnset true t probs frames).pred = predVec true probs ∧
      (processOnset true t probs frames).probs = probs ∧
      (processOnset true t probs frames).time_sec = t := by
  intro t probs frames
  by_cases hc : maxList probs < MODEL_CONF_MIN ∨ activeOf true probs = []
  · rcases h : yin_string_from_frames frames with _ | ⟨s, p⟩
    · rw [processOnset_none t probs frames hc h]
      exact ⟨rfl, rfl, rfl, rfl, rfl⟩
    · rw [processOnset_yin t probs frames s p hc h]
      exact ⟨rfl, rfl, rfl, rfl, rfl⟩
  · rw [processOnset_model t probs frames hc]
    exact ⟨rfl, rfl, rfl, rfl, rfl⟩

/-- C1 counterexample: hybrid mode, all 16 probabilities at `0.05` — the top-1
probability `0.05` is below the `0.20` floor, so the fallback is invoked; the
estimator sees no voiced frames; yet the record keeps the classifier's
non-empty active set `[12]` (string 12 clears its `0.03` threshold) while
being tagged `"none"`. The claimed empty active set is refuted. -/
theorem fallback_none_keeps_active_cex :
    maxList (List.replicate 16 (5/100)) < MODEL_CONF_MIN ∧
    yin_string_from_frames ([] : List (Option ℚ)) = none ∧
    (processOnset true 0 (List.replicate 16 (5/100)) []).used = some "none" ∧
    (processOnset true 0 (List.replicate 16 (5/100)) []).predicted_strings = [12] ∧
    (processOnset true 0 (List.replicate 16 (5/100)) []).predicted_strings ≠ [] :=
  of_decide_eq_true (by with_unfolding_all rfl)

/-- C1 amended: in hybrid mode, when the fallback is invoked and the pitch
estimator finds no voiced frames, the record is tagged `"none"` and keeps the
classifier's thresholded active set unchanged (so the active set is empty
exactly when the threshold decision was empty; a non-empty classifier active
set is not discarded). -/
theorem fallback_none_tag_keeps_threshold_active :
    ∀ (t : ℚ) (probs : List ℚ) (frames : List (Option ℚ)),
      yin_string_from_frames frames = none →
      (maxList probs < MODEL_CONF_MIN ∨ activeOf true probs = []) →
      (processOnset true t probs frames).used = some "none" ∧
      (processOnset true t probs frames).predicted_strings = activeOf true probs := by
  intro t probs frames hn hc
  rw [processOnset_none t probs frames hc hn]
  exact ⟨rfl, rfl⟩

/-- C1 witness: the amended statement instantiated at the counterexample
input (all probabilities `0.05`, no voiced frames). -/
theorem fallback_none_tag_keeps_threshold_active_witness :
    (processOnset true 0 (List.replicate 16 (5/100)) []).used = some "none" ∧
    (processOnset true 0 (List.replicate 16 (5/100)) []).predicted_strings =
      activeOf true (List.replicate 16 (5/100)) :=
  fallback_none_tag_keeps_threshold_active 0 (List.replicate 16 (5/100)) []
    (of_decide_eq_true (by with_unfolding_all rfl))
    (Or.inl (of_decide_eq_true (by with_unfolding_all rfl)))

/-- C2 counterexample: hybrid mode, all 16 probabilities at `0.05` and a
single voiced frame at 440 Hz — the fallback is invoked and succeeds, and the
record's decision-source tag is the literal `"yin"`, which is none of the
claimed tags `"model"`, `"pitch"`, `"none"`. -/
theorem decision_tag_pitch_cex :
    yin_string_from_frames [some 440] = some (5, 440) ∧
    maxList (List.replicate 16 (5/100)) < MODEL_CONF_MIN ∧
    (processOnset true 0 (List.replicate 16 (5/100)) [some 440]).used = some "yin" ∧
    (processOnset true 0 (List.replicate 16 (5/100)) [some 440]).used ≠ some "model" ∧
    (processOnset true 0 (List.replicate 16 (5/100)) [some 440]).used ≠ some "pitch" ∧
    (processOnset true 0 (List.replicate 16 (5/100)) [some 440]).used ≠ some "none" :=
  of_decide_eq_true (by with_unfolding_all rfl)

/-- C2 amended: in hybrid mode every record's decision-source tag is one of
the literals `"model"`, `"yin"`, `"none"` (the source spells the pitch tag
`"yin"`), and whenever the pitch fallback is invoked and succeeds the record
contains exactly the one active string found by the estimator and is tagged
`"yin"`. -/
theorem hybrid_decision_tags :
    ∀ (t : ℚ) (probs : List ℚ) (frames : List (Option ℚ)),
      ((processOnset true t probs frames).used = some "model" ∨
       (processOnset true t probs frames).used = some "yin" ∨
       (processOnset true t probs frames).used = some "none") ∧
      (∀ (s : Nat) (p : ℚ), yin_string_from_frames frames = some (s, p) →
        (maxList probs < MODEL_CONF_MIN ∨ activeOf true probs = []) →
        (processOnset true t probs frames).predicted_strings = [s] ∧
        (processOnset true t probs frames).used = some "yin") := by
  intro t probs frames
  constructor
  · by_cases hc : maxList probs < MODEL_CONF_MIN ∨ activeOf true probs = []
    · rcases h : yin_string_from_frames frames with _ | ⟨s, p⟩
      · rw [processOnset_none t probs frames hc h]
        right; right; rfl
      · rw [processOnset_yin t probs frames s p hc h]
        right; left; rfl
    · rw [processOnset_model t probs frames hc]
      left; rfl
  · intro s p hs hc
    rw [processOnset_yin t probs frames s p hc hs]
    exact ⟨rfl, rfl⟩

/-- C2 witness: the amended statement instantiated at all probabilities
`0.05` with one voiced frame at 440 Hz (fallback success on string 5). -/
theorem hybrid_decision_tags_witness :
    ((processOnset true 0 (List.replicate 16 (5/100)) [some 440]).used = some "model" ∨
     (processOnset true 0 (List.replicate 16 (5/100)) [some 440]).used = some "yin" ∨
     (processOnset true 0 (List.replicate 16 (5/100)) [some 440]).used = some "none") ∧
    (processOnset true 0 (List.replicate 16 (5/100)) [some 440]).predicted_strings = [5] ∧
    (processOnset true 0 (List.replicate 16 (5/100)) [some 440]).used = some "yin" :=
  ⟨(hybrid_decision_tags 0 (List.replicate 16 (5/100)) [some 440]).1,
   (hybrid_decision_tags 0 (List.replicate 16 (5/100)) [some 440]).2 5 440
     (of_decide_eq_true (by with_unfolding_all rfl))
     (Or.inl (of_decide_eq_true (by with_unfolding_all rfl)))⟩

/-- C4: the active-string set is exactly the 1-based indices whose probability
is `≥` the applicable per-string threshold; default mode uses `0.25` for every
string, hybrid mode uses `0.25` everywhere except string 12 (0-based index 11)
which uses `0.03`. A vector with string 12 at `0.04` and all others at `0.20`
gives active set `[12]` in hybrid mode and `[]` in default mode; in default
mode all-`0.26` activates all 16 strings and all-`0.24` activates none. -/
theorem threshold_active_set_spec :
    (∀ (u : Bool) (probs : List ℚ) (s : Nat),
      s ∈ activeOf u probs ↔
        1 ≤ s ∧ s ≤ 16 ∧ thr u (s - 1) ≤ probs.getD (s - 1) 0) ∧
    thr true 11 = 3/100 ∧
    (∀ i : Nat, i = 11 ∨ thr true i = 25/100) ∧
    (∀ i : Nat, thr false i = 25/100) ∧
    activeOf true ((List.range 16).map (fun i => if i = 11 then 4/100 else 20/100)) = [12] ∧
    activeOf false ((List.range 16).map (fun i => if i = 11 then 4/100 else 20/100)) = [] ∧
    activeOf false (List.replicate 16 (26/100)) = (List.range 16).map (· + 1) ∧
    activeOf false (List.replicate 16 (24/100)) = [] := by
  refine ⟨?_, rfl, ?_, fun i => rfl, by with_unfolding_all rfl,
    by with_unfolding_all rfl, by with_unfolding_all rfl, by with_unfolding_all rfl⟩
  · intro u probs s
    simp only [activeOf, NUM_STRINGS, List.mem_map, List.mem_filter, List.mem_range,
      decide_eq_true_eq]
    constructor
    · rintro ⟨i, ⟨hi, hp⟩, rfl⟩
      refine ⟨by omega, by omega, ?_⟩
      simpa using hp
    · rintro ⟨h1, h16, hp⟩
      exact ⟨s - 1, ⟨by omega, hp⟩, by omega⟩
  · intro i
    by_cases h : i = 11
    · left; exact h
    · right; simp [thr, THR_ARRAY, h]

/-- C7 counterexample: for a job with zero accepted onsets the CSV header line
is empty — pandas derives the columns from the (zero) row dicts — and so it is
not the documented `time_sec, predicted_strings, ...` column list. -/
theorem empty_job_csv_header_cex :
    pipelineRecords true [] 16000 id (fun _ => []) [] = [] ∧
    csvHeaderCells true (pipelineRecords true [] 16000 id (fun _ => []) []) = [] ∧
    csvColumns true ≠ [] ∧
    csvHeaderCells true (pipelineRecords true [] 16000 id (fun _ => []) []) ≠
      csvColumns true :=
  of_decide_eq_true (by with_unfolding_all rfl)

/-- C7 amended: for a job whose accepted onset list is empty the pipeline
completes and yields no records, the emitted CSV has zero data rows and an
empty header line (not the named column list, which pandas only produces when
at least one row exists), and the fast-path JSON output is an empty array. -/
theorem empty_job_outputs :
    ∀ (u : Bool) (y : List ℚ) (sr : Nat) (classify : List ℚ → List ℚ)
      (yinFrames : List ℚ → List (Option ℚ)) (raw : List ℚ),
      segmentOnsets raw = [] →
      pipelineRecords u y sr classify yinFrames raw = [] ∧
      csvHeaderCells u (pipelineRecords u y sr classify yinFrames raw) = [] ∧
      csvDataRowCount (pipelineRecords u y sr classify yinFrames raw) = 0 ∧
      fastJson (pipelineRecords u y sr classify yinFrames raw) = [] := by
  intro u y sr cl yf raw h
  have hp : pipelineRecords u y sr cl yf raw = [] := by
    unfold pipelineRecords
    rw [h]
    rfl
  rw [hp]
  exact ⟨rfl, rfl, rfl, rfl⟩

/-- C7 witness: the amended statement instantiated at the empty raw onset
list. -/
theorem empty_job_outputs_witness :
    pipelineRecords true [] 16000 id (fun _ => []) [] = [] ∧
    csvHeaderCells true (pipelineRecords true [] 16000 id (fun _ => []) []) = [] ∧
    csvDataRowCount (pipelineRecords true [] 16000 id (fun _ => []) []) = 0 ∧
    fastJson (pipelineRecords true [] 16000 id (fun _ => []) []) = [] :=
  empty_job_outputs true [] 16000 id (fun _ => []) [] rfl

lemma srtBlocksAux_spec : ∀ (records : List DetectionRecord) (i : Nat),
    (srtBlocksAux i records).map Prod.fst = List.range' i records.length ∧
    (srtBlocksAux i records).map Prod.snd =
      records.map (fun r => srtWindow r.time_sec) := by
  intro records
  induction records with
  | nil => intro i; exact ⟨rfl, rfl⟩
  | cons r rs ih =>
    intro i
    constructor
    · simp only [srtBlocksAux, List.map_cons, List.length_cons, List.range'_succ]
      rw [(ih (i + 1)).1]
    · simp only [srtBlocksAux, List.map_cons]
      rw [(ih (i + 1)).2]

/-- C8 counterexample: for an onset at `t = 0` the subtitle block written by
the code covers `[0, 0.25)` — the start is clamped at 0 — and not the claimed
`[t - 0.02, t - 0.02 + 0.25)`, which would start at `-0.02`. -/
theorem srt_window_clamp_cex :
    srtWindow 0 = (0, 1/4) ∧
    srtWindow 0 ≠ ((0:ℚ) - 2/100, (0:ℚ) - 2/100 + FLASH_DURATION) :=
  of_decide_eq_true (by with_unfolding_all rfl)

/-- C8 amended: one numbered subtitle block per onset (numbered from 1), with
window `[max(0, t - 0.02), max(0, t - 0.02) + 0.25)`: for `t ≥ 0.02` that is
exactly the claimed `[t - 0.02, t - 0.02 + 0.25)`, while for earlier onsets
the start is clamped to 0 and the window is `[0, 0.25)`. -/
theorem srt_window_spec :
    (∀ t : ℚ, 2/100 ≤ t →
      srtWindow t = (t - 2/100, t - 2/100 + FLASH_DURATION)) ∧
    (∀ t : ℚ, t < 2/100 → srtWindow t = (0, FLASH_DURATION)) ∧
    (∀ records : List DetectionRecord,
      (srtBlocks records).map Prod.fst = List.range' 1 records.length ∧
      (srtBlocks records).map Prod.snd =
        records.map (fun r => srtWindow r.time_sec)) := by
  refine ⟨?_, ?_, fun records => srtBlocksAux_spec records 1⟩
  · intro t ht
    have h : max 0 (t - 2/100) = t - 2/100 := max_eq_right (by linarith)
    simp only [srtWindow, h]
  · intro t ht
    have h : max 0 (t - 2/100) = 0 := max_eq_left (by linarith)
    simp only [srtWindow, h, zero_add]

/-- C8 witness: the amended window statement instantiated at `t = 1` (no
clamping) and `t = 0` (clamped). -/
theorem srt_window_spec_witness :
    srtWindow 1 = ((1:ℚ) - 2/100, (1:ℚ) - 2/100 + FLASH_DURATION) ∧
    srtWindow 0 = (0, FLASH_DURATION) :=
  ⟨srt_window_spec.1 1 (by norm_num), srt_window_spec.2.1 0 (by norm_num)⟩

/-- C10: every object of the fast-mode JSON array belongs to some record, and
its `conf` is the classifier's raw probability for the object's string — read
from the record's probability vector regardless of the decision source. For a
string selected by the pitch fallback this can lie below every threshold: with
all probabilities at `0.01` and a voiced 440 Hz frame, the emitted object for
string 5 carries `conf = 0.01`, smaller than `thr` of every string in both
modes. -/
theorem fast_json_conf_is_model_prob :
    (∀ records : List DetectionRecord,
      (fastJson records).Forall (fun d =>
        ∃ r ∈ records, d.t = r.time_sec ∧ d.string ∈ r.predicted_strings ∧
          d.cls = "audio_onset" ∧ d.conf = r.probs.getD (d.string - 1) 0)) ∧
    fastJson [processOnset true 1 (List.replicate 16 (1/100)) [some 440]] =
      [{ t := 1, string := 5, cls := "audio_onset", conf := 1/100 }] ∧
    (∀ i : Nat, (1:ℚ)/100 < thr true i ∧ (1:ℚ)/100 < thr false i) := by
  refine ⟨?_, by with_unfolding_all rfl, ?_⟩
  · intro records
    rw [List.forall_iff_forall_mem]
    intro d hd
    simp only [fastJson, List.mem_flatMap, List.mem_map] at hd
    obtain ⟨r, hr, s, hs, rfl⟩ := hd
    exact ⟨r, hr, rfl, hs, rfl, rfl⟩
  · intro i
    constructor
    · by_cases h : i = 11
      · subst h
        norm_num [thr, THR_ARRAY]
      · norm_num [thr, THR_ARRAY, h]
    · norm_num [thr, THR_DEFAULT]

/-- C6 witness: the nearest-string statement instantiated at pitch 440 Hz
(with the comparison against string 3) and pitch 445 Hz. -/
theorem pitch_to_string_nearest_witness :
    yinStringOfPitch 440 = 5 ∧ yinStringOfPitch 445 = 5 ∧
    1 ≤ yinStringOfPitch 440 ∧ yinStringOfPitch 440 ≤ 16 ∧
    |HARP_STRINGS (yinStringOfPitch 440) - 440| ≤ |HARP_STRINGS 3 - 440| :=
  ⟨pitch_to_string_nearest.2.1, pitch_to_string_nearest.2.2,
   (pitch_to_string_nearest.1 440 (by norm_num)).1,
   (pitch_to_string_nearest.1 440 (by norm_num)).2.1,
   (pitch_to_string_nearest.1 440 (by norm_num)).2.2 3 (by norm_num) (by norm_num)⟩

end Harp
